import Mathlib

/-!
Verification development for the Re:Verb bracket tournament engine.

The definitions below are a shallow embedding of the bracket engine in
`src/lib/bracket.ts` and of the pure decision logic of the HTTP route
handlers for the start and vote commands.  JavaScript strings are modelled
as `String` (track identifiers) and `List Char` (winners-map keys built by
string interpolation); the JS truthiness convention, under which the empty
string and a missing property are both falsy, is modelled by lookups that
return `none` for a missing entry and for the empty string.  JS numbers
are modelled as `Nat` (all arithmetic in the engine stays on non-negative
integers in range), with 32-bit wrap-around made explicit by `% 2 ^ 32`
where the pseudo-random generator relies on it.  Functions that `throw`
are modelled with `Except`.
-/

set_option maxRecDepth 10000

/-- One decimal digit character, as produced by JS number-to-string
conversion for a digit value. -/
def digitChar (d : Nat) : Char :=
  match d with
  | 0 => '0' | 1 => '1' | 2 => '2' | 3 => '3' | 4 => '4'
  | 5 => '5' | 6 => '6' | 7 => '7' | 8 => '8' | _ => '9'

/-- Accumulator-style decimal rendering of a natural number, mirroring the
decimal rendering performed by JS template literals: most significant digit
first.  The first argument is recursion fuel; `natDigits` supplies enough
fuel that it is never exhausted. -/
def decDigitsGo : Nat → Nat → List Char → List Char
  | 0, _, acc => acc
  | fuel + 1, n, acc =>
    if n < 10 then digitChar (n % 10) :: acc
    else decDigitsGo fuel (n / 10) (digitChar (n % 10) :: acc)

/-- Decimal digit sequence of a natural number (`7` becomes `['7']`,
`23` becomes `['2','3']`). -/
def natDigits (n : Nat) : List Char :=
  decDigitsGo (n + 1) n []

/-- Embedding of `matchKey` from `src/lib/bracket.ts`: the template literal
`r${round}m${match}` as a character sequence. -/
def matchKey (round mIdx : Nat) : List Char :=
  'r' :: natDigits round ++ 'm' :: natDigits mIdx

/-- The winners map `Record<string, string>`, as an association list from
key characters to winner track id. -/
def WinnerMap := List (List Char × String)

instance : DecidableEq WinnerMap :=
  inferInstanceAs (DecidableEq (List (List Char × String)))

/-- Raw property lookup on the winners map object. -/
def lookupEntry (k : List Char) : WinnerMap → Option String
  | [] => none
  | (k', v) :: rest => if k' = k then some v else lookupEntry k rest

/-- Truthy read `winners[k]`: a missing property and the empty string are
both falsy in JS, so both are `none`. -/
def winnersGet (winners : WinnerMap) (k : List Char) : Option String :=
  match lookupEntry k winners with
  | some v => if v = "" then none else some v
  | none => none

/-- Truthy read `tracks[i]`: out-of-range access yields `undefined` and the
empty string is falsy, so both are `none`. -/
def getT (tracks : List String) (i : Nat) : Option String :=
  match tracks[i]? with
  | some s => if s = "" then none else some s
  | none => none

/-- Embedding of `isPowerOfTwo`: `n > 0 && (n & (n - 1)) === 0`. -/
def isPowerOfTwo (n : Nat) : Bool :=
  decide (0 < n) && (n &&& (n - 1) == 0)

/-- Fuel-based base-2 logarithm; `jsLog2` supplies enough fuel that it is
never exhausted, and `jsLog2_eq_log2` identifies it with `Nat.log2`. -/
def log2Go : Nat → Nat → Nat
  | 0, _ => 0
  | fuel + 1, n => if 2 ≤ n then log2Go fuel (n / 2) + 1 else 0

/-- `Math.floor(Math.log2 n)` on a positive integer `n`: the floor base-2
logarithm. -/
def jsLog2 (n : Nat) : Nat :=
  log2Go (n + 1) n

def log2Go_eq : ∀ (fuel n : Nat), n < fuel → log2Go fuel n = Nat.log2 n := by
  intro fuel
  induction fuel with
  | zero => intro n h; omega
  | succ f ih =>
    intro n h
    show (if 2 ≤ n then log2Go f (n / 2) + 1 else 0) = Nat.log2 n
    unfold Nat.log2
    by_cases h2 : 2 ≤ n
    · rw [if_pos h2, if_pos h2, ih (n / 2) (by omega)]
    · rw [if_neg h2, if_neg h2]

def jsLog2_eq_log2 : ∀ n : Nat, jsLog2 n = Nat.log2 n :=
  fun n => log2Go_eq (n + 1) n (by omega)

/-- Error raised by `totalRounds` when the size is not a power of two. -/
inductive BracketError where
  | invalidSize
deriving DecidableEq

deriving instance DecidableEq for Except

/-- Embedding of `totalRounds`: `Math.log2(size)` after the power-of-two
check; throwing is modelled by `Except`. -/
def totalRounds (size : Nat) : Except BracketError Nat :=
  if isPowerOfTwo size then .ok (jsLog2 size) else .error .invalidSize

/-- Embedding of `matchCount`: `size / 2 ** (round + 1)` (exact whenever
`round < totalRounds size`, which is the only way the engine calls it). -/
def matchCount (size round : Nat) : Nat :=
  size / 2 ^ (round + 1)

/-- The pair of participants of one match. -/
structure MatchPair where
  a : String
  b : String
deriving DecidableEq

/-- Embedding of `resolveMatchParticipants` from `src/lib/bracket.ts`. -/
def resolveMatchParticipants (size : Nat) (tracks : List String)
    (winners : WinnerMap) (round mIdx : Nat) : Option MatchPair :=
  if tracks.length ≠ size then none
  else if round = 0 then
    match getT tracks (mIdx * 2), getT tracks (mIdx * 2 + 1) with
    | some a, some b => some ⟨a, b⟩
    | _, _ => none
  else
    match winnersGet winners (matchKey (round - 1) (mIdx * 2)),
          winnersGet winners (matchKey (round - 1) (mIdx * 2 + 1)) with
    | some a, some b => some ⟨a, b⟩
    | _, _ => none

/-- The `MatchRef` record of `src/lib/bracket.ts`. -/
structure MatchRef where
  round : Nat
  matchIdx : Nat
  a : String
  b : String
deriving DecidableEq

/-- All `(round, match)` addresses in scan order: rounds ascending, match
index ascending within a round — the iteration order of the nested loops
in `nextOpenMatch`. -/
def matchList (size rounds : Nat) : List (Nat × Nat) :=
  (List.range rounds).flatMap fun r =>
    (List.range (matchCount size r)).map fun m => (r, m)

/-- One iteration of the `nextOpenMatch` scan body: skip a decided match,
skip an unresolvable match, otherwise produce the match reference. -/
def tryOpenMatch (size : Nat) (tracks : List String) (winners : WinnerMap)
    (p : Nat × Nat) : Option MatchRef :=
  match winnersGet winners (matchKey p.1 p.2) with
  | some _ => none
  | none =>
    match resolveMatchParticipants size tracks winners p.1 p.2 with
    | none => none
    | some pr => some ⟨p.1, p.2, pr.a, pr.b⟩

/-- Embedding of `nextOpenMatch` from `src/lib/bracket.ts`. -/
def nextOpenMatch (size : Nat) (tracks : List String) (winners : WinnerMap) :
    Except BracketError (Option MatchRef) := do
  let rounds ← totalRounds size
  .ok ((matchList size rounds).findSome? (tryOpenMatch size tracks winners))

/-- Embedding of `bracketWinner` from `src/lib/bracket.ts`. -/
def bracketWinner (size : Nat) (winners : WinnerMap) :
    Except BracketError (Option String) := do
  let rounds ← totalRounds size
  .ok (winnersGet winners (matchKey (rounds - 1) 0))

/-- The loser computation of one `computeRanking` loop iteration:
participants must resolve and the match must have a truthy winner, and the
loser is `win === participants.a ? participants.b : participants.a`. -/
def loserOfMatch (size : Nat) (tracks : List String) (winners : WinnerMap)
    (round mIdx : Nat) : Option String :=
  match resolveMatchParticipants size tracks winners round mIdx with
  | none => none
  | some p =>
    match winnersGet winners (matchKey round mIdx) with
    | none => none
    | some win => some (if win = p.a then p.b else p.a)

/-- Sequential option-valued map: the first failing element aborts the
whole computation, exactly like the early `return null` in the
`computeRanking` loops. -/
def collectSome (f : α → Option β) : List α → Option (List β)
  | [] => some []
  | x :: xs =>
    match f x, collectSome f xs with
    | some y, some ys => some (y :: ys)
    | _, _ => none

/-- Losers of one round of `computeRanking`, in ascending match-index
order; `none` as soon as one match is unresolvable or undecided. -/
def roundLosers (size : Nat) (tracks : List String) (winners : WinnerMap)
    (r : Nat) : Option (List String) :=
  collectSome (loserOfMatch size tracks winners r) (List.range (matchCount size r))

/-- Body of `computeRanking` once the round count is known: champion,
runner-up, then for each round from `rounds - 2` down to `0` the losers of
that round in ascending match-index order. -/
def computeRankingCore (size : Nat) (tracks : List String)
    (winners : WinnerMap) (rounds : Nat) : Option (List String) :=
  match winnersGet winners (matchKey (rounds - 1) 0) with
  | none => none
  | some finalWinner =>
    match collectSome (roundLosers size tracks winners) (List.range rounds) with
    | none => none
    | some loserByRound =>
      match (loserByRound.getD (rounds - 1) []).head? with
      | none => none
      | some runnerUp =>
        if runnerUp = "" then none
        else
          some (finalWinner :: runnerUp ::
            (List.range (rounds - 1)).reverse.flatMap fun r => loserByRound.getD r [])

/-- Embedding of `computeRanking` from `src/lib/bracket.ts`. -/
def computeRanking (size : Nat) (tracks : List String) (winners : WinnerMap) :
    Except BracketError (Option (List String)) := do
  let rounds ← totalRounds size
  .ok (computeRankingCore size tracks winners rounds)

/-- One step of the `mulberry32` generator from `src/lib/bracket.ts`,
acting on the 32-bit state pattern: returns the new state and the raw
32-bit output word (the JS closure divides this word by `2 ** 32` to get a
float in `[0,1)`). -/
def mulberry32 (a0 : Nat) : Nat × Nat :=
  let a := (a0 + 0x6d2b79f5) % 4294967296
  let t1 := ((a ^^^ (a >>> 15)) * (1 ||| a)) % 4294967296
  let t2 := ((t1 + ((t1 ^^^ (t1 >>> 7)) * (61 ||| t1)) % 4294967296) % 4294967296) ^^^ t1
  (a, t2 ^^^ (t2 >>> 14))

/-- JS `seed >>> 0`: the unsigned 32-bit pattern of an integer. -/
def jsUint32 (seed : Int) : Nat :=
  (seed % 4294967296).toNat

/-- The destructuring swap `[out[i], out[j]] = [out[j]!, out[i]!]`. -/
def swapL (l : List α) (i j : Nat) : List α :=
  match l[i]?, l[j]? with
  | some x, some y => (l.set i y).set j x
  | _, _ => l

/-- The Fisher-Yates loop of `seededShuffle`: the argument `i` is the
current loop index (the loop body runs for indices `i, i-1, ..., 1`), and
`floor(rand() * (i + 1))` is the exact integer `t * (i + 1) / 2 ** 32`. -/
def shuffleLoop (l : List α) (a : Nat) : Nat → List α
  | 0 => l
  | i + 1 =>
    let s := mulberry32 a
    let j := s.2 * (i + 2) / 4294967296
    shuffleLoop (swapL l (i + 1) j) s.1 i

/-- Embedding of `seededShuffle` from `src/lib/bracket.ts`. -/
def seededShuffle (arr : List α) (seed : Int) : List α :=
  shuffleLoop arr (jsUint32 seed) (arr.length - 1)

/-- JS 32-bit `seed ^ c` as used to derive sub-seeds in the start handler,
returned as the unsigned pattern (the subsequent `>>> 0` inside
`seededShuffle` only depends on that pattern). -/
def jsXor32 (seed : Int) (c : Nat) : Int :=
  Int.ofNat (Nat.xor (jsUint32 seed) (c % 4294967296))

/-- The `uniqueById` dedup of the start handlers: keep the first occurrence
of every identifier. -/
def dedupIds (seen acc : List String) : List String → List String
  | [] => acc.reverse
  | t :: rest =>
    if t ∈ seen then dedupIds seen acc rest
    else dedupIds (t :: seen) (t :: acc) rest

/-- Embedding of `pickUnique` from the start handler in
`src/unnamed/part_004`: draw up to `want` identifiers not yet in `seen`,
returning the picks and the updated `seen` set (the JS function mutates a
shared `Set`). -/
def pickUnique (tracks : List String) (want : Nat) (seen : List String) :
    List String × List String :=
  match tracks with
  | [] => ([], seen)
  | t :: rest =>
    if want = 0 then ([], seen)
    else if t ∈ seen then pickUnique rest want seen
    else
      let p := pickUnique rest (want - 1) (t :: seen)
      (t :: p.1, p.2)

/-- JS `2 ** Math.floor(Math.log2(n))` for a non-negative integer `n`:
for `n = 0` the float computation yields `2 ** -Infinity = 0`. -/
def pow2Floor (n : Nat) : Nat :=
  if n = 0 then 0 else 2 ^ jsLog2 n

/-- The picks of `pickUnique` never exceed the requested count (needed for
termination of the sizing loop). -/
def pickUnique_len_le :
    ∀ (l : List String) (w : Nat) (s : List String),
      (pickUnique l w s).1.length ≤ w := by
  intro l
  induction l with
  | nil => intro w s; simp [pickUnique]
  | cons t rest ih =>
    intro w s
    by_cases hw : w = 0
    · simp [pickUnique, hw]
    · by_cases hs : t ∈ s
      · simpa [pickUnique, hw, hs] using ih w s
      · have := ih rest.length.succ.pred s
        simp only [pickUnique, if_neg hw, if_neg hs, List.length_cons]
        have h := ih (w - 1) (t :: s)
        omega

/-- `pow2Floor` never exceeds its argument (needed for termination of the
sizing loop). -/
def pow2Floor_le : ∀ n : Nat, pow2Floor n ≤ n := by
  intro n
  by_cases h : n = 0
  · simp [pow2Floor, h]
  · simpa [pow2Floor, h, jsLog2_eq_log2] using Nat.log2_self_le h

/-- Error raised by the sizing loop when the deduplicated per-side pool is
too small. -/
inductive SizingError where
  | notEnoughTracks
deriving DecidableEq

/-- The dual-source per-side sizing loop of the start handler
(`while (true)` over `perUser` in `src/unnamed/part_004`): pick up to
`perUser` globally-unique identifiers per side, host side scanned first;
accept when the power-of-two floor of the smaller pick count equals
`perUser`, fail below the threshold of four per side, otherwise retry with
the smaller value. -/
def sizingLoop (host chall : List String) (perUser : Nat) :
    Except SizingError (Nat × List String × List String) :=
  if h4 : pow2Floor (min (pickUnique host perUser []).1.length
      (pickUnique chall perUser (pickUnique host perUser []).2).1.length) < 4 then
    .error .notEnoughTracks
  else if heq : pow2Floor (min (pickUnique host perUser []).1.length
      (pickUnique chall perUser (pickUnique host perUser []).2).1.length) = perUser then
    .ok (perUser, (pickUnique host perUser []).1.take perUser,
      (pickUnique chall perUser (pickUnique host perUser []).2).1.take perUser)
  else
    sizingLoop host chall
      (pow2Floor (min (pickUnique host perUser []).1.length
        (pickUnique chall perUser (pickUnique host perUser []).2).1.length))
termination_by perUser
decreasing_by
  have h1 : pow2Floor (min (pickUnique host perUser []).1.length
      (pickUnique chall perUser (pickUnique host perUser []).2).1.length)
      ≤ (pickUnique host perUser []).1.length :=
    Nat.le_trans (pow2Floor_le _) (Nat.min_le_left _ _)
  have h2 := pickUnique_len_le host perUser []
  omega

/-- Source type of a tournament (`sourceType` column). -/
inductive SourceType where
  | playlist
  | playlist_vs
  | top_tracks
deriving DecidableEq

/-- Tournament status (`status` column). -/
inductive TStatus where
  | waiting_for_host
  | waiting_for_challenger
  | ready
  | in_progress
  | completed
deriving DecidableEq

/-- The tournament row fields consulted by the start handler. -/
structure Tournament where
  sourceType : SourceType
  status : TStatus
  hostUserId : Option String
  challengerUserId : Option String
  hostPlaylistId : Option String
  challengerPlaylistId : Option String
  bracketSize : Nat
  seed : Int
  meshMode : Bool
deriving DecidableEq

/-- Error responses of the start handler. -/
inductive StartError where
  | unauthorized
  | forbidden
  | tournamentNotReady
  | playlistNotSelected
  | notEnoughTracks
deriving DecidableEq

/-- Observable outcome of the start handler: an error response, the
idempotent `ok` answer that leaves all stored state untouched, or the
materialization of a fresh slot list with an empty winners map together
with the transition to `in_progress` and the new bracket size. -/
inductive StartOutcome where
  | errS (e : StartError)
  | unchanged
  | started (bracketSize : Nat) (tracks : List String)
deriving DecidableEq

/-- Bracket size carried by a `started` outcome. -/
def startedSize : StartOutcome → Option Nat
  | .started n _ => some n
  | _ => none

/-- The strict left/right interleaving of the two sides' shuffled picks
(`out.push(hostIds[i]!, challengerIds[i]!)` for `i < perUser`). -/
def interleaveIds (hostIds challIds : List String) (perUser : Nat) : List String :=
  (List.range perUser).flatMap fun i => [hostIds.getD i "", challIds.getD i ""]

/-- The slot list materialized from the two sides' picks: each side is
shuffled with its own derived seed, then either meshed into one pool with a
third derived seed or interleaved left/right. -/
def buildBracketTracks (hostTracks challTracks : List String) (seed : Int)
    (meshMode : Bool) (perUser : Nat) : List String :=
  let hostIds := seededShuffle hostTracks (jsXor32 seed 0x13579bdf)
  let challIds := seededShuffle challTracks (jsXor32 seed 0x2468ace0)
  if meshMode then
    seededShuffle (hostIds.take perUser ++ challIds.take perUser) (jsXor32 seed 0x9e3779b9)
  else
    interleaveIds hostIds challIds perUser

/-- Embedding of the decision logic of `POST /tournaments/:id/start` in
`src/unnamed/part_004`.  The already-fetched candidate identifier lists
stand in for the Spotify fetches (for `playlist` mode the single playlist's
tracks are passed as `hostCand`); `user` is the session user resolved by
`requireUser`.  Database writes are abstracted into the outcome: every
early `return` before the delete/insert statements maps to `errS` or
`unchanged`, and the re-materialization path maps to `started`. -/
def startStep (t : Tournament) (user : Option String)
    (hostCand challCand : List String) : StartOutcome :=
  if t.sourceType = .playlist then
    if t.hostUserId = none then .errS .tournamentNotReady
    else if t.status = .in_progress ∨ t.status = .completed then .unchanged
    else if t.hostPlaylistId = none then .errS .playlistNotSelected
    else
      let unique := dedupIds [] [] hostCand
      let bracketSize := pow2Floor (min t.bracketSize unique.length)
      if bracketSize < 8 then .errS .notEnoughTracks
      else
        .started bracketSize
          (seededShuffle (unique.take bracketSize) (jsXor32 t.seed 0x13579bdf))
  else
    match user with
    | none => .errS .unauthorized
    | some u =>
      if t.hostUserId = none then .errS .tournamentNotReady
      else if ¬ (t.hostUserId = some u ∨ t.challengerUserId = some u) then
        .errS .forbidden
      else if t.sourceType = .playlist_vs then
        if t.status = .in_progress ∨ t.status = .completed then .unchanged
        else if t.hostUserId = none ∨ t.challengerUserId = none then
          .errS .tournamentNotReady
        else if t.hostPlaylistId = none ∨ t.challengerPlaylistId = none then
          .errS .playlistNotSelected
        else
          match sizingLoop (dedupIds [] [] hostCand) (dedupIds [] [] challCand)
              (t.bracketSize / 2) with
          | .error _ => .errS .notEnoughTracks
          | .ok (perUser, hostTracks, challTracks) =>
            if perUser * 2 < 8 then .errS .notEnoughTracks
            else
              .started (perUser * 2)
                (buildBracketTracks hostTracks challTracks t.seed t.meshMode perUser)
      else
        if t.challengerUserId = none then .errS .tournamentNotReady
        else
          match sizingLoop hostCand challCand (t.bracketSize / 2) with
          | .error _ => .errS .notEnoughTracks
          | .ok (perUser, hostTracks, challTracks) =>
            .started (perUser * 2)
              (buildBracketTracks hostTracks challTracks t.seed t.meshMode perUser)

/-- Error responses of the vote handler. -/
inductive VoteError where
  | invalidSize
  | invalidRound
  | invalidMatch
  | matchAlreadyVoted
  | matchNotReady
  | winnerNotInMatch
deriving DecidableEq

/-- Response of the vote handler on success (`finalWinner` echoes the
champion when the final match is now decided). -/
inductive VoteResult where
  | okV (finalWinner : Option String)
  | errV (e : VoteError)
deriving DecidableEq

/-- The bracket state blob persisted per tournament. -/
structure BracketState where
  tracks : List String
  winners : WinnerMap
deriving DecidableEq

/-- Embedding of the decision logic of `POST /tournaments/:id/vote` in
`src/unnamed/part_004`: all guards run against the stored blob, and only
the success path writes the updated winners map back.  The returned state
is the stored state after the request. -/
def voteStep (st : BracketState) (round mIdx : Nat) (winnerId : String) :
    BracketState × VoteResult :=
  match totalRounds st.tracks.length with
  | .error _ => (st, .errV .invalidSize)
  | .ok rounds =>
    if round ≥ rounds then (st, .errV .invalidRound)
    else if mIdx ≥ matchCount st.tracks.length round then (st, .errV .invalidMatch)
    else
      match winnersGet st.winners (matchKey round mIdx) with
      | some _ => (st, .errV .matchAlreadyVoted)
      | none =>
        match resolveMatchParticipants st.tracks.length st.tracks st.winners round mIdx with
        | none => (st, .errV .matchNotReady)
        | some p =>
          if winnerId ≠ p.a ∧ winnerId ≠ p.b then (st, .errV .winnerNotInMatch)
          else
            let winners' := (matchKey round mIdx, winnerId) :: st.winners
            (⟨st.tracks, winners'⟩, .okV (winnersGet winners' (matchKey (rounds - 1) 0)))

/-- Lexicographic order on `(round, match)` addresses. -/
def lexLE (p q : Nat × Nat) : Prop :=
  p.1 < q.1 ∨ (p.1 = q.1 ∧ p.2 ≤ q.2)

/-- The loser of a match as described by the spec: the resolved participant
that is not the recorded winner (with the code's tie direction when the
recorded winner matches participant `a`). -/
def loserFrom (A B W : Nat → Nat → String) (r m : Nat) : String :=
  if W r m = A r m then B r m else A r m

/-- Scenario A track slots: size 8, tracks `a` through `h`. -/
def scenarioTracks : List String := ["a", "b", "c", "d", "e", "f", "g", "h"]

/-- Scenario A winners: round 0 gives a, d, e, h; round 1 gives a, h; the
final gives a. -/
def scenarioWinners : WinnerMap :=
  [(matchKey 0 0, "a"), (matchKey 0 1, "d"), (matchKey 0 2, "e"), (matchKey 0 3, "h"),
   (matchKey 1 0, "a"), (matchKey 1 1, "h"), (matchKey 2 0, "a")]

/-- Scenario A participant `a` of each match. -/
def scenA : Nat → Nat → String := fun r m =>
  match r, m with
  | 0, 0 => "a" | 0, 1 => "c" | 0, 2 => "e" | 0, 3 => "g"
  | 1, 0 => "a" | 1, 1 => "e"
  | 2, 0 => "a"
  | _, _ => "x"

/-- Scenario A participant `b` of each match. -/
def scenB : Nat → Nat → String := fun r m =>
  match r, m with
  | 0, 0 => "b" | 0, 1 => "d" | 0, 2 => "f" | 0, 3 => "h"
  | 1, 0 => "d" | 1, 1 => "h"
  | 2, 0 => "h"
  | _, _ => "x"

/-- Scenario A recorded winner of each match. -/
def scenW : Nat → Nat → String := fun r m =>
  match r, m with
  | 0, 0 => "a" | 0, 1 => "d" | 0, 2 => "e" | 0, 3 => "h"
  | 1, 0 => "a" | 1, 1 => "h"
  | 2, 0 => "a"
  | _, _ => "x"

/-- Fully decided size-4 bracket: participant `a` of each match. -/
def witA : Nat → Nat → String := fun r m =>
  match r, m with
  | 0, 0 => "a" | 0, 1 => "c" | 1, 0 => "a" | _, _ => "x"

/-- Fully decided size-4 bracket: participant `b` of each match. -/
def witB : Nat → Nat → String := fun r m =>
  match r, m with
  | 0, 0 => "b" | 0, 1 => "d" | 1, 0 => "c" | _, _ => "x"

/-- Fully decided size-4 bracket: recorded winner of each match. -/
def witW : Nat → Nat → String := fun r m =>
  match r, m with
  | 0, 0 => "a" | 0, 1 => "c" | 1, 0 => "a" | _, _ => "x"

/-- Winners map of the fully decided size-4 bracket. -/
def witWinners : WinnerMap :=
  [(matchKey 0 0, "a"), (matchKey 0 1, "c"), (matchKey 1 0, "a")]

/-- Scenario C host candidates: 30 distinct identifiers. -/
def hostCand30 : List String :=
  ["h01","h02","h03","h04","h05","h06","h07","h08","h09","h10",
   "h11","h12","h13","h14","h15","h16","h17","h18","h19","h20",
   "h21","h22","h23","h24","h25","h26","h27","h28","h29","h30"]

/-- Scenario C challenger candidates: 9 distinct identifiers, disjoint from
the host candidates. -/
def challCand9 : List String :=
  ["c1","c2","c3","c4","c5","c6","c7","c8","c9"]

/-- Candidate list of 8 distinct host identifiers used to exercise the
top-tracks start path. -/
def hostCand8 : List String := ["h1","h2","h3","h4","h5","h6","h7","h8"]

/-- Candidate list of 8 distinct challenger identifiers used to exercise
the top-tracks start path. -/
def challCand8 : List String := ["k1","k2","k3","k4","k5","k6","k7","k8"]

/-- A completed top-tracks tournament, as stored after the final vote. -/
def completedTopTracks : Tournament :=
  ⟨.top_tracks, .completed, some "H", some "C", none, none, 16, 1, false⟩

/-- A completed playlist-vs tournament with both playlists attached. -/
def completedPlaylistVs : Tournament :=
  ⟨.playlist_vs, .completed, some "H", some "C", some "P1", some "P2", 16, 1, false⟩

/-- A top-tracks tournament configured for bracket size 32, ready to
start. -/
def topTracks32 : Tournament :=
  ⟨.top_tracks, .ready, some "H", some "C", none, none, 32, 1, false⟩

/-- Decimal value of a digit character sequence (inverse of `natDigits`). -/
def valDigits (l : List Char) : Nat :=
  l.foldl (fun v c => v * 10 + (c.toNat - 48)) 0

/-- Strict lexicographic order on `(round, match)` addresses. -/
def lexLT (p q : Nat × Nat) : Prop :=
  p.1 < q.1 ∨ (p.1 = q.1 ∧ p.2 < q.2)

/-! ### General lemmas about the embedding -/

theorem collectSome_eq_map {α β : Type} {f : α → Option β} {g : α → β} :
    ∀ {l : List α}, (∀ x ∈ l, f x = some (g x)) → collectSome f l = some (l.map g)
  | [], _ => rfl
  | x :: xs, h => by
    have hx := h x (List.mem_cons_self x xs)
    have hxs := collectSome_eq_map (f := f) (g := g)
      (fun y hy => h y (List.mem_cons_of_mem x hy))
    simp [collectSome, hx, hxs]

theorem collectSome_eq_none {α β : Type} {f : α → Option β} :
    ∀ {l : List α} {x : α}, x ∈ l → f x = none → collectSome f l = none := by
  intro l
  induction l with
  | nil => intro x hx _; cases hx
  | cons y ys ih =>
    intro x hx hfx
    rcases List.mem_cons.mp hx with h | h
    · subst h
      cases hc : collectSome f ys <;> simp [collectSome, hfx, hc]
    · cases hf : f y <;> simp [collectSome, hf, ih h hfx]

theorem isPowerOfTwo_two_pow (k : Nat) : isPowerOfTwo (2 ^ k) = true := by
  have hand : 2 ^ k &&& (2 ^ k - 1) = 0 := by
    apply Nat.eq_of_testBit_eq
    intro i
    simp only [Nat.testBit_and, Nat.testBit_two_pow, Nat.testBit_two_pow_sub_one,
      Nat.zero_testBit]
    by_cases h : k = i
    · subst h; simp
    · simp [h]
  simp [isPowerOfTwo, hand, Nat.two_pow_pos]

theorem totalRounds_two_pow (k : Nat) : totalRounds (2 ^ k) = .ok k := by
  simp [totalRounds, isPowerOfTwo_two_pow, jsLog2_eq_log2, Nat.log2_two_pow]

theorem matchCount_two_pow {k r : Nat} (h : r < k) :
    matchCount (2 ^ k) r = 2 ^ (k - r - 1) := by
  unfold matchCount
  rw [Nat.pow_div (by omega) (by omega)]
  have h2 : k - (r + 1) = k - r - 1 := by omega
  rw [h2]

theorem matchCount_final {k : Nat} (h : 1 ≤ k) : matchCount (2 ^ k) (k - 1) = 1 := by
  rw [matchCount_two_pow (by omega)]
  have : k - (k - 1) - 1 = 0 := by omega
  rw [this, pow_zero]

theorem matchCount_double {k r : Nat} (h : r + 1 < k) :
    matchCount (2 ^ k) r = 2 * matchCount (2 ^ k) (r + 1) := by
  rw [matchCount_two_pow (by omega), matchCount_two_pow (by omega)]
  have h1 : k - r - 1 = (k - (r + 1) - 1) + 1 := by omega
  rw [h1, pow_succ]
  omega

theorem getT_some_ne {tracks : List String} {i : Nat} {s : String}
    (h : getT tracks i = some s) : s ≠ "" := by
  unfold getT at h
  split at h
  · split at h
    · cases h
    · cases h; assumption
  · cases h

theorem winnersGet_some_ne {winners : WinnerMap} {k : List Char} {s : String}
    (h : winnersGet winners k = some s) : s ≠ "" := by
  unfold winnersGet at h
  split at h
  · split at h
    · cases h
    · cases h; assumption
  · cases h

theorem resolve_ne_empty {size : Nat} {tracks : List String} {winners : WinnerMap}
    {round mIdx : Nat} {p : MatchPair}
    (h : resolveMatchParticipants size tracks winners round mIdx = some p) :
    p.a ≠ "" ∧ p.b ≠ "" := by
  unfold resolveMatchParticipants at h
  split at h
  · cases h
  · split at h
    · split at h
      · cases h
        exact ⟨getT_some_ne (by assumption), getT_some_ne (by assumption)⟩
      · cases h
    · split at h
      · cases h
        exact ⟨winnersGet_some_ne (by assumption), winnersGet_some_ne (by assumption)⟩
      · cases h

/-! ### C5: characterization of resolveMatchParticipants -/

theorem resolve_round0_iff {size : Nat} {tracks : List String} {winners : WinnerMap}
    {m : Nat} (hlen : tracks.length = size) :
    (resolveMatchParticipants size tracks winners 0 m).isSome
      ↔ (getT tracks (m * 2)).isSome ∧ (getT tracks (m * 2 + 1)).isSome := by
  unfold resolveMatchParticipants
  rw [if_neg (by omega)]
  cases h1 : getT tracks (m * 2) <;> cases h2 : getT tracks (m * 2 + 1) <;> simp

theorem resolve_succ_iff {size : Nat} {tracks : List String} {winners : WinnerMap}
    {r m : Nat} (hlen : tracks.length = size) :
    (resolveMatchParticipants size tracks winners (r + 1) m).isSome
      ↔ (winnersGet winners (matchKey r (m * 2))).isSome
        ∧ (winnersGet winners (matchKey r (m * 2 + 1))).isSome := by
  unfold resolveMatchParticipants
  rw [if_neg (by omega), if_neg (by omega)]
  simp only [Nat.add_sub_cancel]
  cases h1 : winnersGet winners (matchKey r (m * 2)) <;>
    cases h2 : winnersGet winners (matchKey r (m * 2 + 1)) <;> simp

theorem resolve_scenarioB (tracks : List String) :
    resolveMatchParticipants 8 tracks [] 1 0 = none := by
  unfold resolveMatchParticipants
  split
  · rfl
  · rw [if_neg (by omega)]
    rfl

/-- C5: for a bracket slot list of the right length, round-0 participants
resolve exactly when both slots `2m` and `2m+1` hold truthy identifiers,
and round `r+1` participants resolve exactly when both feeder matches
`(r, 2m)` and `(r, 2m+1)` have recorded (truthy) winners; moreover round 1
of a size-8 bracket with an empty winners map never resolves. -/
theorem resolveParticipants_characterization :
    (∀ (size : Nat) (tracks : List String) (winners : WinnerMap) (m : Nat),
        tracks.length = size →
        ((resolveMatchParticipants size tracks winners 0 m).isSome
          ↔ (getT tracks (m * 2)).isSome ∧ (getT tracks (m * 2 + 1)).isSome)) ∧
    (∀ (size : Nat) (tracks : List String) (winners : WinnerMap) (r m : Nat),
        tracks.length = size →
        ((resolveMatchParticipants size tracks winners (r + 1) m).isSome
          ↔ (winnersGet winners (matchKey r (m * 2))).isSome
            ∧ (winnersGet winners (matchKey r (m * 2 + 1))).isSome)) ∧
    (∀ tracks : List String, resolveMatchParticipants 8 tracks [] 1 0 = none) :=
  ⟨fun _ _ _ _ hlen => resolve_round0_iff hlen,
   fun _ _ _ _ _ hlen => resolve_succ_iff hlen,
   resolve_scenarioB⟩

/-- Witness for C5 at concrete inputs. -/
theorem resolveParticipants_characterization_witness :
    ((["a", "b", "c", "d"] : List String).length = 4 ∧
      ((resolveMatchParticipants 4 ["a", "b", "c", "d"] [] 0 0).isSome
        ↔ (getT ["a", "b", "c", "d"] 0).isSome ∧ (getT ["a", "b", "c", "d"] 1).isSome)) ∧
    ((resolveMatchParticipants 4 ["a", "b", "c", "d"] [] 1 0).isSome
        ↔ (winnersGet [] (matchKey 0 0)).isSome ∧ (winnersGet [] (matchKey 0 1)).isSome) ∧
    resolveMatchParticipants 8 ["a", "b", "c", "d", "e", "f", "g", "h"] [] 1 0 = none :=
  ⟨⟨rfl, resolveParticipants_characterization.1 4 ["a", "b", "c", "d"] [] 0 rfl⟩,
   resolveParticipants_characterization.2.1 4 ["a", "b", "c", "d"] [] 0 0 rfl,
   resolveParticipants_characterization.2.2 ["a", "b", "c", "d", "e", "f", "g", "h"]⟩

/-! ### C3: vote guards leave the state unchanged -/

theorem voteStep_frame_or (st : BracketState) (round mIdx : Nat) (wid : String) :
    (voteStep st round mIdx wid).1 = st ∨
      ∃ fw, (voteStep st round mIdx wid).2 = .okV fw := by
  unfold voteStep
  split
  · exact .inl rfl
  · split
    · exact .inl rfl
    · split
      · exact .inl rfl
      · split
        · exact .inl rfl
        · split
          · exact .inl rfl
          · split
            · exact .inl rfl
            · exact .inr ⟨_, rfl⟩

/-- C3: a vote on an in-range match that already has a recorded winner
fails with the already-decided error and returns the stored state
untouched, whatever the submitted winner id is (including the stored
winner itself); and more generally every failing vote leaves the stored
bracket state exactly as it was. -/
theorem vote_already_decided_unchanged :
    (∀ (st : BracketState) (round mIdx : Nat) (wid : String) (rounds : Nat) (w : String),
        totalRounds st.tracks.length = .ok rounds →
        round < rounds →
        mIdx < matchCount st.tracks.length round →
        winnersGet st.winners (matchKey round mIdx) = some w →
        voteStep st round mIdx wid = (st, .errV .matchAlreadyVoted)) ∧
    (∀ (st : BracketState) (round mIdx : Nat) (wid : String) (e : VoteError),
        (voteStep st round mIdx wid).2 = .errV e →
        (voteStep st round mIdx wid).1 = st) := by
  constructor
  · intro st round mIdx wid rounds w htr hround hmatch hwin
    unfold voteStep
    simp only [htr]
    rw [if_neg (by omega), if_neg (by omega), hwin]
  · intro st round mIdx wid e herr
    rcases voteStep_frame_or st round mIdx wid with h | ⟨fw, hok⟩
    · exact h
    · rw [hok] at herr
      cases herr

/-- Witness for C3 at a concrete already-decided state. -/
theorem vote_already_decided_unchanged_witness :
    (totalRounds (BracketState.mk ["a", "b", "c", "d"] [(matchKey 0 0, "a")]).tracks.length = .ok 2 ∧
      0 < 2 ∧
      0 < matchCount (BracketState.mk ["a", "b", "c", "d"] [(matchKey 0 0, "a")]).tracks.length 0 ∧
      winnersGet (BracketState.mk ["a", "b", "c", "d"] [(matchKey 0 0, "a")]).winners (matchKey 0 0) = some "a" ∧
      voteStep (BracketState.mk ["a", "b", "c", "d"] [(matchKey 0 0, "a")]) 0 0 "a"
        = (BracketState.mk ["a", "b", "c", "d"] [(matchKey 0 0, "a")], .errV .matchAlreadyVoted)) ∧
    ((voteStep (BracketState.mk ["a", "b", "c", "d"] []) 5 0 "a").2 = .errV .invalidRound ∧
      (voteStep (BracketState.mk ["a", "b", "c", "d"] []) 5 0 "a").1
        = BracketState.mk ["a", "b", "c", "d"] []) :=
  ⟨⟨by decide, by decide, by decide, by decide,
    vote_already_decided_unchanged.1 ⟨["a", "b", "c", "d"], [(matchKey 0 0, "a")]⟩ 0 0 "a" 2 "a"
      (by decide) (by decide) (by decide) (by decide)⟩,
   by decide,
   vote_already_decided_unchanged.2 ⟨["a", "b", "c", "d"], []⟩ 5 0 "a" .invalidRound (by decide)⟩

/-! ### C7: the seeded shuffle is a permutation -/

theorem count_swapL {α : Type} [DecidableEq α] (l : List α) (i j : Nat) (b : α) :
    (swapL l i j).count b = l.count b := by
  unfold swapL
  cases hi : l[i]? with
  | none => rfl
  | some x =>
    cases hj : l[j]? with
    | none => rfl
    | some y =>
      have hil : i < l.length := by
        have := List.getElem?_eq_some_iff.mp hi
        exact this.1
      have hjl : j < l.length := by
        have := List.getElem?_eq_some_iff.mp hj
        exact this.1
      have hx : l[i] = x := (List.getElem?_eq_some_iff.mp hi).2
      have hy : l[j] = y := (List.getElem?_eq_some_iff.mp hj).2
      rw [List.count_set x b (l.set i y) j (by simpa using hjl),
          List.count_set y b l i hil]
      simp only [List.getElem_set, hy, ite_self, hx]
      have hcx : x = b → 0 < l.count b := by
        intro hxb
        apply List.count_pos_iff.mpr
        rw [← hxb, ← hx]
        exact List.getElem_mem hil
      by_cases hxb : x = b
      · have hpos := hcx hxb
        by_cases hyb : y = b <;> simp [hxb, hyb] <;> omega
      · by_cases hyb : y = b <;> simp [hxb, hyb] <;> omega

theorem swapL_perm {α : Type} [DecidableEq α] (l : List α) (i j : Nat) :
    (swapL l i j).Perm l :=
  List.perm_iff_count.mpr fun b => count_swapL l i j b

theorem shuffleLoop_perm {α : Type} [DecidableEq α] :
    ∀ (i : Nat) (l : List α) (a : Nat), (shuffleLoop l a i).Perm l := by
  intro i
  induction i with
  | zero => intro l a; exact List.Perm.refl l
  | succ n ih =>
    intro l a
    show (shuffleLoop (swapL l (n + 1) ((mulberry32 a).2 * (n + 2) / 4294967296))
      (mulberry32 a).1 n).Perm l
    exact (ih _ _).trans (swapL_perm l (n + 1) _)

/-- C7: `seededShuffle` returns a permutation of its input list — the same
elements with the same multiplicities and in particular the same length.
Determinism and absence of input mutation are inherent to the embedding:
the function is a pure Lean function of `(arr, seed)`, so equal arguments
give syntactically equal results, and the input list value is unchanged. -/
theorem seededShuffle_permutation {α : Type} [DecidableEq α]
    (l : List α) (seed : Int) :
    (seededShuffle l seed).Perm l ∧ (seededShuffle l seed).length = l.length := by
  have h : (seededShuffle l seed).Perm l := shuffleLoop_perm (l.length - 1) l (jsUint32 seed)
  exact ⟨h, h.length_eq⟩

/-! ### C10: injectivity of the match key encoding -/

theorem decDigitsGo_acc :
    ∀ (fuel n : Nat) (acc : List Char),
      decDigitsGo fuel n acc = decDigitsGo fuel n [] ++ acc := by
  intro fuel
  induction fuel with
  | zero => intro n acc; rfl
  | succ f ih =>
    intro n acc
    show (if n < 10 then digitChar (n % 10) :: acc
        else decDigitsGo f (n / 10) (digitChar (n % 10) :: acc))
      = (if n < 10 then digitChar (n % 10) :: ([] : List Char)
        else decDigitsGo f (n / 10) [digitChar (n % 10)]) ++ acc
    by_cases h : n < 10
    · simp [h]
    · rw [if_neg h, if_neg h, ih (n / 10) (digitChar (n % 10) :: acc),
        ih (n / 10) [digitChar (n % 10)], List.append_assoc]
      rfl

theorem decDigitsGo_fuel :
    ∀ (n f1 f2 : Nat) (acc : List Char), n < f1 → n < f2 →
      decDigitsGo f1 n acc = decDigitsGo f2 n acc := by
  intro n
  induction n using Nat.strong_induction_on with
  | _ n ih =>
    intro f1 f2 acc h1 h2
    match f1, f2 with
    | fa + 1, fb + 1 =>
      show (if n < 10 then digitChar (n % 10) :: acc
          else decDigitsGo fa (n / 10) (digitChar (n % 10) :: acc))
        = (if n < 10 then digitChar (n % 10) :: acc
          else decDigitsGo fb (n / 10) (digitChar (n % 10) :: acc))
      by_cases h : n < 10
      · rw [if_pos h, if_pos h]
      · rw [if_neg h, if_neg h]
        exact ih (n / 10) (by omega) fa fb _ (by omega) (by omega)

theorem natDigits_unfold (n : Nat) :
    natDigits n = if n < 10 then [digitChar n]
      else natDigits (n / 10) ++ [digitChar (n % 10)] := by
  by_cases h : n < 10
  · rw [if_pos h]
    show (if n < 10 then digitChar (n % 10) :: ([] : List Char)
        else decDigitsGo n (n / 10) (digitChar (n % 10) :: [])) = [digitChar n]
    rw [if_pos h, Nat.mod_eq_of_lt h]
  · rw [if_neg h]
    show (if n < 10 then digitChar (n % 10) :: ([] : List Char)
        else decDigitsGo n (n / 10) (digitChar (n % 10) :: [])) = _
    rw [if_neg h, decDigitsGo_acc]
    unfold natDigits
    rw [decDigitsGo_fuel (n / 10) n (n / 10 + 1) [] (by omega) (by omega)]

theorem digitChar_toNat : ∀ d : Nat, d < 10 → (digitChar d).toNat = 48 + d := by
  decide

theorem digitChar_ne_m : ∀ d : Nat, digitChar d ≠ 'm' := by
  intro d
  unfold digitChar
  split <;> decide

theorem natDigits_ne_m : ∀ (n : Nat), ∀ c ∈ natDigits n, c ≠ 'm' := by
  intro n
  induction n using Nat.strong_induction_on with
  | _ n ih =>
    intro c hc
    rw [natDigits_unfold] at hc
    by_cases h : n < 10
    · rw [if_pos h] at hc
      rcases List.mem_singleton.mp hc with rfl
      exact digitChar_ne_m n
    · rw [if_neg h] at hc
      rcases List.mem_append.mp hc with h1 | h1
      · exact ih (n / 10) (by omega) c h1
      · rcases List.mem_singleton.mp h1 with rfl
        exact digitChar_ne_m (n % 10)

theorem valDigits_append_singleton (l : List Char) (c : Char) :
    valDigits (l ++ [c]) = valDigits l * 10 + (c.toNat - 48) := by
  unfold valDigits
  rw [List.foldl_append]
  rfl

theorem valDigits_natDigits : ∀ n : Nat, valDigits (natDigits n) = n := by
  intro n
  induction n using Nat.strong_induction_on with
  | _ n ih =>
    rw [natDigits_unfold]
    by_cases h : n < 10
    · rw [if_pos h]
      show valDigits ([] ++ [digitChar n]) = n
      rw [valDigits_append_singleton, digitChar_toNat n h]
      simp [valDigits]
    · rw [if_neg h, valDigits_append_singleton, ih (n / 10) (by omega),
        digitChar_toNat (n % 10) (by omega)]
      omega

theorem natDigits_inj {a b : Nat} (h : natDigits a = natDigits b) : a = b := by
  have := valDigits_natDigits a
  rw [h, valDigits_natDigits b] at this
  omega

theorem append_m_inj :
    ∀ (xs1 : List Char) {ys1 xs2 ys2 : List Char}, 'm' ∉ xs1 → 'm' ∉ xs2 →
      xs1 ++ 'm' :: ys1 = xs2 ++ 'm' :: ys2 → xs1 = xs2 ∧ ys1 = ys2 := by
  intro xs1
  induction xs1 with
  | nil =>
    intro ys1 xs2 ys2 _ hm2 heq
    cases xs2 with
    | nil => exact ⟨rfl, by simpa using heq⟩
    | cons c cs =>
      exfalso
      have hc : c = 'm' := by
        have := congrArg List.head? heq
        simpa using this.symm
      exact hm2 (hc ▸ List.mem_cons_self c cs)
  | cons c cs ih =>
    intro ys1 xs2 ys2 hm1 hm2 heq
    cases xs2 with
    | nil =>
      exfalso
      have hc : c = 'm' := by
        have := congrArg List.head? heq
        simpa using this
      exact hm1 (hc ▸ List.mem_cons_self c cs)
    | cons d ds =>
      have hhead : c = d := by
        have := congrArg List.head? heq
        simpa using this
      have htail : cs ++ 'm' :: ys1 = ds ++ 'm' :: ys2 := by
        have := congrArg List.tail heq
        simpa using this
      have hrec := ih (fun hm => hm1 (List.mem_cons_of_mem c hm))
        (fun hm => hm2 (List.mem_cons_of_mem d hm)) htail
      exact ⟨by rw [hhead, hrec.1], hrec.2⟩

/-- C10: the `r{round}m{match}` key encoding is injective — two match
addresses produce the same winners-map key only if both the round and the
match index agree, including across one-digit and multi-digit boundaries. -/
theorem matchKey_injective (r1 m1 r2 m2 : Nat)
    (h : matchKey r1 m1 = matchKey r2 m2) : r1 = r2 ∧ m1 = m2 := by
  unfold matchKey at h
  have htail : natDigits r1 ++ 'm' :: natDigits m1
      = natDigits r2 ++ 'm' :: natDigits m2 := by
    have := congrArg List.tail h
    simpa using this
  have hsplit := append_m_inj (natDigits r1) (natDigits_ne_m r1 'm' ·  rfl)
    (natDigits_ne_m r2 'm' · rfl) htail
  exact ⟨natDigits_inj hsplit.1, natDigits_inj hsplit.2⟩

/-- Witness for C10 at concrete inputs spanning a digit boundary. -/
theorem matchKey_injective_witness : (12 : Nat) = 12 ∧ (3 : Nat) = 3 :=
  matchKey_injective 12 3 12 3 rfl

/-! ### C9: inconsistent winners maps and computeRanking -/

theorem computeRanking_two_pow (k : Nat) (tracks : List String) (winners : WinnerMap) :
    computeRanking (2 ^ k) tracks winners
      = .ok (computeRankingCore (2 ^ k) tracks winners k) := by
  unfold computeRanking
  rw [totalRounds_two_pow]
  rfl

theorem loserOfMatch_none_of {size : Nat} {tracks : List String}
    {winners : WinnerMap} {r m : Nat}
    (h : resolveMatchParticipants size tracks winners r m = none ∨
      winnersGet winners (matchKey r m) = none) :
    loserOfMatch size tracks winners r m = none := by
  unfold loserOfMatch
  rcases h with h | h
  · rw [h]
  · rw [h]
    cases resolveMatchParticipants size tracks winners r m <;> rfl

/-- C9 counterexample: for the size-4 bracket over tracks a, b, c, d, the
winners map recording only the final match (an inconsistent state with a
champion but undecided earlier matches) makes `computeRanking` return the
very same plain null answer as the empty winners map (champion missing), so
the outcome is not a distinct, distinguishable error. -/
theorem computeRanking_inconsistent_counterexample :
    winnersGet [(matchKey 1 0, "a")] (matchKey 1 0) = some "a" ∧
    computeRanking 4 ["a", "b", "c", "d"] [(matchKey 1 0, "a")] = .ok none ∧
    computeRanking 4 ["a", "b", "c", "d"] [] = .ok none ∧
    computeRanking 4 ["a", "b", "c", "d"] [(matchKey 1 0, "a")]
      = computeRanking 4 ["a", "b", "c", "d"] [] :=
  ⟨by decide, by decide, by decide, by decide⟩

/-- C9 amended: when a power-of-two bracket has a recorded champion but
some in-range match whose participants do not resolve or whose winner is
missing, `computeRanking` returns the plain null result — the same value
as the not-yet-available case, and never a partial ranking. -/
theorem computeRanking_inconsistent_null
    (size rounds : Nat) (tracks : List String) (winners : WinnerMap)
    (r m : Nat) (w : String)
    (hsz : size = 2 ^ rounds)
    (hch : winnersGet winners (matchKey (rounds - 1) 0) = some w)
    (hr : r < rounds) (hm : m < matchCount size r)
    (hfail : resolveMatchParticipants size tracks winners r m = none ∨
      winnersGet winners (matchKey r m) = none) :
    computeRanking size tracks winners = .ok none := by
  subst hsz
  rw [computeRanking_two_pow]
  have hlm : loserOfMatch (2 ^ rounds) tracks winners r m = none :=
    loserOfMatch_none_of hfail
  have hrl : roundLosers (2 ^ rounds) tracks winners r = none :=
    collectSome_eq_none (List.mem_range.mpr hm) hlm
  have houter : collectSome (roundLosers (2 ^ rounds) tracks winners)
      (List.range rounds) = none :=
    collectSome_eq_none (List.mem_range.mpr hr) hrl
  unfold computeRankingCore
  rw [hch, houter]

/-- Witness for the amended C9 at a concrete inconsistent state. -/
theorem computeRanking_inconsistent_null_witness :
    (4 = 2 ^ 2 ∧
      winnersGet [(matchKey 1 0, "a")] (matchKey (2 - 1) 0) = some "a" ∧
      0 < 2 ∧ 0 < matchCount 4 0 ∧
      winnersGet [(matchKey 1 0, "a")] (matchKey 0 0) = none) ∧
    computeRanking 4 ["a", "b", "c", "d"] [(matchKey 1 0, "a")] = .ok none :=
  ⟨⟨by decide, by decide, by decide, by decide, by decide⟩,
   computeRanking_inconsistent_null 4 2 ["a", "b", "c", "d"]
     [(matchKey 1 0, "a")] 0 0 "a" (by decide) (by decide) (by decide)
     (by decide) (.inr (by decide))⟩

/-! ### C1: the shape of the ranking for fully decided brackets -/

theorem getD_map_range {β : Type} (F : Nat → β) {n i : Nat} (h : i < n) (d : β) :
    ((List.range n).map F).getD i d = F i := by
  rw [List.getD_eq_getElem?_getD, List.getElem?_map, List.getElem?_range h]
  rfl

theorem flatMap_congr_mem {α β : Type} {l : List α} {f g : α → List β}
    (h : ∀ x ∈ l, f x = g x) : l.flatMap f = l.flatMap g := by
  induction l with
  | nil => rfl
  | cons x xs ih =>
    rw [List.flatMap_cons, List.flatMap_cons, h x (List.mem_cons_self x xs),
      ih fun y hy => h y (List.mem_cons_of_mem x hy)]

theorem loserFrom_ne_empty {size : Nat} {tracks : List String}
    {winners : WinnerMap} {A B W : Nat → Nat → String} {r m : Nat}
    (hres : resolveMatchParticipants size tracks winners r m = some ⟨A r m, B r m⟩) :
    loserFrom A B W r m ≠ "" := by
  have h := resolve_ne_empty hres
  unfold loserFrom
  by_cases hw : W r m = A r m
  · rw [if_pos hw]; exact h.2
  · rw [if_neg hw]; exact h.1

theorem computeRanking_eval
    (size rounds : Nat) (tracks : List String) (winners : WinnerMap)
    (A B W : Nat → Nat → String)
    (hsz : size = 2 ^ rounds) (hr : 1 ≤ rounds)
    (hres : ∀ r < rounds, ∀ m < matchCount size r,
      resolveMatchParticipants size tracks winners r m = some ⟨A r m, B r m⟩)
    (hwin : ∀ r < rounds, ∀ m < matchCount size r,
      winnersGet winners (matchKey r m) = some (W r m)) :
    computeRanking size tracks winners =
      .ok (some (W (rounds - 1) 0 :: loserFrom A B W (rounds - 1) 0 ::
        ((List.range (rounds - 1)).reverse.flatMap fun r =>
          (List.range (matchCount size r)).map (loserFrom A B W r)))) := by
  subst hsz
  rw [computeRanking_two_pow]
  have hfin1 : matchCount (2 ^ rounds) (rounds - 1) = 1 := matchCount_final hr
  have hrc : rounds - 1 < rounds := by omega
  have h01 : 0 < matchCount (2 ^ rounds) (rounds - 1) := by omega
  have hloser : ∀ r < rounds, ∀ m < matchCount (2 ^ rounds) r,
      loserOfMatch (2 ^ rounds) tracks winners r m = some (loserFrom A B W r m) := by
    intro r hrr m hm
    unfold loserOfMatch
    rw [hres r hrr m hm, hwin r hrr m hm]
    rfl
  have hround : ∀ r < rounds, roundLosers (2 ^ rounds) tracks winners r
      = some ((List.range (matchCount (2 ^ rounds) r)).map (loserFrom A B W r)) := by
    intro r hrr
    unfold roundLosers
    exact collectSome_eq_map fun m hm => hloser r hrr m (List.mem_range.mp hm)
  have houter : collectSome (roundLosers (2 ^ rounds) tracks winners) (List.range rounds)
      = some ((List.range rounds).map fun r =>
          (List.range (matchCount (2 ^ rounds) r)).map (loserFrom A B W r)) :=
    collectSome_eq_map fun r hr2 => hround r (List.mem_range.mp hr2)
  have hgd := getD_map_range
    (fun r => (List.range (matchCount (2 ^ rounds) r)).map (loserFrom A B W r))
    hrc ([] : List String)
  have hr1 : List.range 1 = [0] := rfl
  unfold computeRankingCore
  simp only [hwin (rounds - 1) hrc 0 h01, houter, hgd, hfin1,
    hr1, List.map_cons, List.map_nil, List.head?_cons]
  rw [if_neg (loserFrom_ne_empty (hres (rounds - 1) hrc 0 h01))]
  simp only [Except.ok.injEq, Option.some.injEq, List.cons.injEq, true_and]
  apply flatMap_congr_mem
  intro r hrm
  have hlt : r < rounds := by
    have := List.mem_range.mp (List.mem_reverse.mp hrm)
    omega
  rw [getD_map_range _ hlt]

/-- C1: on a fully decided power-of-two bracket — every in-range match has
resolved participants and a recorded winner — `computeRanking` returns the
champion, then the runner-up, then for each round from `totalRounds - 2`
down to `0` the losers of that round in ascending match-index order; in
particular on scenario A (size 8, tracks a..h, winners a, d, e, h / a, h /
a) it returns `[a, h, d, e, b, c, f, g]` (the witness instantiates this). -/
theorem computeRanking_fully_decided_sequence
    (size rounds : Nat) (tracks : List String) (winners : WinnerMap)
    (A B W : Nat → Nat → String)
    (hsz : size = 2 ^ rounds) (hr : 1 ≤ rounds)
    (hres : ∀ r < rounds, ∀ m < matchCount size r,
      resolveMatchParticipants size tracks winners r m = some ⟨A r m, B r m⟩)
    (hwin : ∀ r < rounds, ∀ m < matchCount size r,
      winnersGet winners (matchKey r m) = some (W r m)) :
    computeRanking size tracks winners =
      .ok (some (W (rounds - 1) 0 :: loserFrom A B W (rounds - 1) 0 ::
        ((List.range (rounds - 1)).reverse.flatMap fun r =>
          (List.range (matchCount size r)).map (loserFrom A B W r)))) :=
  computeRanking_eval size rounds tracks winners A B W hsz hr hres hwin

/-- Witness for C1: scenario A evaluates to `[a, h, d, e, b, c, f, g]`. -/
theorem computeRanking_fully_decided_sequence_witness :
    ((8 : Nat) = 2 ^ 3 ∧ 1 ≤ 3 ∧
      (∀ r < 3, ∀ m < matchCount 8 r,
        resolveMatchParticipants 8 scenarioTracks scenarioWinners r m
          = some ⟨scenA r m, scenB r m⟩) ∧
      (∀ r < 3, ∀ m < matchCount 8 r,
        winnersGet scenarioWinners (matchKey r m) = some (scenW r m))) ∧
    computeRanking 8 scenarioTracks scenarioWinners
      = .ok (some ["a", "h", "d", "e", "b", "c", "f", "g"]) :=
  ⟨⟨by decide, by decide, by decide, by decide⟩,
   (computeRanking_fully_decided_sequence 8 3 scenarioTracks scenarioWinners
      scenA scenB scenW (by decide) (by decide) (by decide) (by decide)).trans
     (by decide)⟩

/-! ### C2: the ranking is a permutation of the slot list -/

theorem flatMap_pair_perm {α β : Type} (l : List α) (f g : α → β) :
    (l.flatMap fun m => [f m, g m]).Perm (l.map f ++ l.map g) := by
  induction l with
  | nil => exact List.Perm.refl _
  | cons x xs ih =>
    rw [List.flatMap_cons, List.map_cons, List.map_cons]
    show (f x :: g x :: xs.flatMap fun m => [f m, g m]).Perm
      (f x :: (xs.map f ++ g x :: xs.map g))
    refine List.Perm.cons (f x) ?_
    have h1 : (g x :: xs.flatMap fun m => [f m, g m]).Perm
        (g x :: (xs.map f ++ xs.map g)) := List.Perm.cons (g x) ih
    exact h1.trans List.perm_middle.symm

theorem range_double_flatMap {β : Type} :
    ∀ (n : Nat) (f : Nat → β),
      (List.range (2 * n)).map f
        = (List.range n).flatMap fun m => [f (2 * m), f (2 * m + 1)] := by
  intro n
  induction n with
  | zero => intro f; rfl
  | succ k ih =>
    intro f
    have h2 : 2 * (k + 1) = (2 * k) + 1 + 1 := by omega
    rw [h2, List.range_succ, List.range_succ, List.range_succ,
      List.map_append, List.map_append, List.flatMap_append, ih f]
    simp

theorem list_pair_reconstruct {β : Type} (d : β) :
    ∀ (n : Nat) (l : List β), l.length = 2 * n →
      ((List.range n).flatMap fun m => [l.getD (2 * m) d, l.getD (2 * m + 1) d]) = l := by
  intro n
  induction n with
  | zero =>
    intro l hl
    cases l with
    | nil => rfl
    | cons x xs => simp at hl
  | succ k ih =>
    intro l hl
    match l with
    | x :: y :: t =>
      have hlen : t.length = 2 * k := by
        simp only [List.length_cons] at hl
        omega
      rw [List.range_succ_eq_map, List.flatMap_cons]
      have hmap : ((List.range k).map Nat.succ).flatMap
          (fun m => [(x :: y :: t).getD (2 * m) d, (x :: y :: t).getD (2 * m + 1) d])
          = (List.range k).flatMap fun m => [t.getD (2 * m) d, t.getD (2 * m + 1) d] := by
        rw [List.flatMap_map]
        apply flatMap_congr_mem
        intro m _
        have e1 : 2 * Nat.succ m = 2 * m + 1 + 1 := by omega
        show [(x :: y :: t).getD (2 * Nat.succ m) d,
            (x :: y :: t).getD (2 * Nat.succ m + 1) d] = _
        rw [e1]
        rfl
      rw [hmap, ih t hlen]
      rfl

theorem getT_getD {tracks : List String} {i : Nat} {s : String}
    (h : getT tracks i = some s) : tracks.getD i "" = s := by
  unfold getT at h
  rw [List.getD_eq_getElem?_getD]
  cases hg : tracks[i]? with
  | none => rw [hg] at h; exact Option.noConfusion h
  | some v =>
    simp only [hg] at h
    by_cases hv : v = ""
    · rw [if_pos hv] at h
      exact Option.noConfusion h
    · rw [if_neg hv] at h
      cases h
      rfl

theorem ranking_perm_tracks
    (rounds : Nat) (tracks : List String) (winners : WinnerMap)
    (A B W : Nat → Nat → String)
    (hr : 1 ≤ rounds)
    (hlen : tracks.length = 2 ^ rounds)
    (hres : ∀ r < rounds, ∀ m < matchCount (2 ^ rounds) r,
      resolveMatchParticipants (2 ^ rounds) tracks winners r m = some ⟨A r m, B r m⟩)
    (hwin : ∀ r < rounds, ∀ m < matchCount (2 ^ rounds) r,
      winnersGet winners (matchKey r m) = some (W r m))
    (hmem : ∀ r < rounds, ∀ m < matchCount (2 ^ rounds) r,
      W r m = A r m ∨ W r m = B r m) :
    (W (rounds - 1) 0 :: loserFrom A B W (rounds - 1) 0 ::
      ((List.range (rounds - 1)).reverse.flatMap fun r =>
        (List.range (matchCount (2 ^ rounds) r)).map (loserFrom A B W r))).Perm
      tracks := by
  have hpair : ∀ r < rounds, ∀ m < matchCount (2 ^ rounds) r,
      ([A r m, B r m] : List String).Perm [W r m, loserFrom A B W r m] := by
    intro r hrr m hm
    unfold loserFrom
    by_cases hA : W r m = A r m
    · rw [if_pos hA, ← hA]
    · rcases hmem r hrr m hm with hw | hw
      · exact absurd hw hA
      · rw [if_neg hA, ← hw]
        exact List.Perm.swap _ _ _
  have hstep1 : ∀ r < rounds,
      ((List.range (matchCount (2 ^ rounds) r)).flatMap fun m => [A r m, B r m]).Perm
        ((List.range (matchCount (2 ^ rounds) r)).map (W r)
          ++ (List.range (matchCount (2 ^ rounds) r)).map (loserFrom A B W r)) := by
    intro r hrr
    have h1 : ((List.range (matchCount (2 ^ rounds) r)).flatMap
          fun m => [A r m, B r m]).Perm
        ((List.range (matchCount (2 ^ rounds) r)).flatMap
          fun m => [W r m, loserFrom A B W r m]) :=
      List.Perm.flatMap_left _ fun m hm => hpair r hrr m (List.mem_range.mp hm)
    exact h1.trans (flatMap_pair_perm _ _ _)
  have hlink : ∀ r, r + 1 < rounds → ∀ m < matchCount (2 ^ rounds) (r + 1),
      A (r + 1) m = W r (m * 2) ∧ B (r + 1) m = W r (m * 2 + 1) := by
    intro r hr1 m hm
    have hdouble : matchCount (2 ^ rounds) r = 2 * matchCount (2 ^ rounds) (r + 1) :=
      matchCount_double hr1
    have h2m : m * 2 < matchCount (2 ^ rounds) r := by omega
    have h2m1 : m * 2 + 1 < matchCount (2 ^ rounds) r := by omega
    have h1 := hres (r + 1) (by omega) m hm
    unfold resolveMatchParticipants at h1
    rw [if_neg (by omega), if_neg (by omega)] at h1
    simp only [Nat.add_sub_cancel] at h1
    rw [hwin r (by omega) (m * 2) h2m, hwin r (by omega) (m * 2 + 1) h2m1] at h1
    have h2 : MatchPair.mk (W r (m * 2)) (W r (m * 2 + 1))
        = MatchPair.mk (A (r + 1) m) (B (r + 1) m) := Option.some.inj h1
    exact ⟨(congrArg MatchPair.a h2).symm, (congrArg MatchPair.b h2).symm⟩
  have hstep2 : ∀ r, r + 1 < rounds →
      (List.range (matchCount (2 ^ rounds) r)).map (W r)
        = (List.range (matchCount (2 ^ rounds) (r + 1))).flatMap
            fun m => [A (r + 1) m, B (r + 1) m] := by
    intro r hr1
    rw [matchCount_double hr1, range_double_flatMap]
    apply flatMap_congr_mem
    intro m hm
    have hl := hlink r hr1 m (List.mem_range.mp hm)
    rw [hl.1, hl.2, Nat.mul_comm m 2]
  have hc0 : matchCount (2 ^ rounds) 0 = 2 ^ (rounds - 1) :=
    matchCount_two_pow (by omega)
  have hpow : 2 ^ rounds = 2 * 2 ^ (rounds - 1) := by
    have h' : rounds = (rounds - 1) + 1 := by omega
    rw [h', Nat.add_sub_cancel, pow_succ]
    omega
  have hlen2 : tracks.length = 2 * matchCount (2 ^ rounds) 0 := by
    rw [hc0, hlen, hpow]
  have hslot : ∀ m < matchCount (2 ^ rounds) 0,
      tracks.getD (2 * m) "" = A 0 m ∧ tracks.getD (2 * m + 1) "" = B 0 m := by
    intro m hm
    have h1 := hres 0 (by omega) m hm
    unfold resolveMatchParticipants at h1
    rw [if_neg (by omega), if_pos rfl] at h1
    cases hga : getT tracks (m * 2) with
    | none => rw [hga] at h1; exact Option.noConfusion h1
    | some a =>
      cases hgb : getT tracks (m * 2 + 1) with
      | none => rw [hga, hgb] at h1; exact Option.noConfusion h1
      | some b =>
        rw [hga, hgb] at h1
        have h2 : MatchPair.mk a b = MatchPair.mk (A 0 m) (B 0 m) :=
          Option.some.inj h1
        have ha : a = A 0 m := congrArg MatchPair.a h2
        have hb : b = B 0 m := congrArg MatchPair.b h2
        rw [Nat.mul_comm 2 m]
        exact ⟨(getT_getD hga).trans ha, (getT_getD hgb).trans hb⟩
  have hcontest0 : ((List.range (matchCount (2 ^ rounds) 0)).flatMap
      fun m => [A 0 m, B 0 m]) = tracks := by
    have h1 := list_pair_reconstruct "" (matchCount (2 ^ rounds) 0) tracks hlen2
    rw [← h1]
    apply flatMap_congr_mem
    intro m hm
    have hs := hslot m (List.mem_range.mp hm)
    rw [hs.1, hs.2]
  have hstep : ∀ j, j < rounds →
      tracks.Perm (((List.range j).flatMap fun r =>
        (List.range (matchCount (2 ^ rounds) r)).map (loserFrom A B W r))
        ++ ((List.range (matchCount (2 ^ rounds) j)).flatMap fun m => [A j m, B j m])) := by
    intro j
    induction j with
    | zero =>
      intro _
      simp only [List.range_zero, List.flatMap_nil, List.nil_append, hcontest0]
      exact List.Perm.refl tracks
    | succ j ihj =>
      intro hj1
      have hjr : j < rounds := by omega
      have h1 := ihj hjr
      have h2 := hstep1 j hjr
      have h3 := hstep2 j hj1
      rw [h3] at h2
      have h4 : tracks.Perm (((List.range j).flatMap fun r =>
          (List.range (matchCount (2 ^ rounds) r)).map (loserFrom A B W r))
          ++ (((List.range (matchCount (2 ^ rounds) (j + 1))).flatMap
              fun m => [A (j + 1) m, B (j + 1) m])
            ++ (List.range (matchCount (2 ^ rounds) j)).map (loserFrom A B W j))) :=
        h1.trans (List.Perm.append_left _ h2)
      have h5 : ((((List.range (matchCount (2 ^ rounds) (j + 1))).flatMap
              fun m => [A (j + 1) m, B (j + 1) m])
            ++ (List.range (matchCount (2 ^ rounds) j)).map (loserFrom A B W j)) :
          List String).Perm
          (((List.range (matchCount (2 ^ rounds) j)).map (loserFrom A B W j))
            ++ ((List.range (matchCount (2 ^ rounds) (j + 1))).flatMap
              fun m => [A (j + 1) m, B (j + 1) m])) :=
        List.perm_append_comm
      have h6 := h4.trans (List.Perm.append_left _ h5)
      rw [← List.append_assoc] at h6
      have h7 : ((List.range (j + 1)).flatMap fun r =>
          (List.range (matchCount (2 ^ rounds) r)).map (loserFrom A B W r))
          = ((List.range j).flatMap fun r =>
              (List.range (matchCount (2 ^ rounds) r)).map (loserFrom A B W r))
            ++ (List.range (matchCount (2 ^ rounds) j)).map (loserFrom A B W j) := by
        rw [List.range_succ, List.flatMap_append, List.flatMap_cons, List.flatMap_nil,
          List.append_nil]
      rw [← h7] at h6
      exact h6
  have hfin1 : matchCount (2 ^ rounds) (rounds - 1) = 1 := matchCount_final hr
  have hfinal := hstep (rounds - 1) (by omega)
  rw [hfin1] at hfinal
  have hsingle : ((List.range 1).flatMap
      fun m => [A (rounds - 1) m, B (rounds - 1) m])
      = [A (rounds - 1) 0, B (rounds - 1) 0] := rfl
  rw [hsingle] at hfinal
  have hpf := hpair (rounds - 1) (by omega) 0 (by omega)
  have hasc : tracks.Perm (((List.range (rounds - 1)).flatMap fun r =>
      (List.range (matchCount (2 ^ rounds) r)).map (loserFrom A B W r))
      ++ [W (rounds - 1) 0, loserFrom A B W (rounds - 1) 0]) :=
    hfinal.trans (List.Perm.append_left _ hpf)
  have hrev : (((List.range (rounds - 1)).reverse.flatMap fun r =>
      (List.range (matchCount (2 ^ rounds) r)).map (loserFrom A B W r)) :
        List String).Perm
      ((List.range (rounds - 1)).flatMap fun r =>
        (List.range (matchCount (2 ^ rounds) r)).map (loserFrom A B W r)) :=
    List.Perm.flatMap_right _ (List.reverse_perm _)
  show ([W (rounds - 1) 0, loserFrom A B W (rounds - 1) 0]
      ++ (List.range (rounds - 1)).reverse.flatMap fun r =>
        (List.range (matchCount (2 ^ rounds) r)).map (loserFrom A B W r)).Perm tracks
  refine ((List.Perm.append_left _ hrev).trans ?_)
  exact List.perm_append_comm.trans hasc.symm

/-- C2: for a power-of-two bracket of size at least 4 whose slot list holds
`size` distinct identifiers and whose winners map is fully decided with
every recorded winner among that match's resolved participants,
`computeRanking` returns a list of exactly `size` distinct identifiers
whose first element is the final match's winner and whose second element is
the final match's loser. -/
theorem computeRanking_roundtrip
    (size rounds : Nat) (tracks : List String) (winners : WinnerMap)
    (A B W : Nat → Nat → String)
    (hsz : size = 2 ^ rounds) (hN : 4 ≤ size)
    (hlen : tracks.length = size) (hnd : tracks.Nodup)
    (hres : ∀ r < rounds, ∀ m < matchCount size r,
      resolveMatchParticipants size tracks winners r m = some ⟨A r m, B r m⟩)
    (hwin : ∀ r < rounds, ∀ m < matchCount size r,
      winnersGet winners (matchKey r m) = some (W r m))
    (hmem : ∀ r < rounds, ∀ m < matchCount size r,
      W r m = A r m ∨ W r m = B r m) :
    ∃ l, computeRanking size tracks winners = .ok (some l) ∧
      l.length = size ∧ l.Nodup ∧
      l.head? = some (W (rounds - 1) 0) ∧
      l[1]? = some (loserFrom A B W (rounds - 1) 0) := by
  subst hsz
  have hr : 1 ≤ rounds := by
    by_contra hcon
    have h0 : rounds = 0 := by omega
    rw [h0] at hN
    norm_num at hN
  have heval := computeRanking_eval (2 ^ rounds) rounds tracks winners A B W rfl hr
    hres hwin
  have hperm := ranking_perm_tracks rounds tracks winners A B W hr hlen hres hwin hmem
  exact ⟨_, heval, hperm.length_eq.trans hlen, hperm.nodup_iff.mpr hnd, rfl, by simp⟩

/-- Witness for C2 on a concrete fully decided size-4 bracket. -/
theorem computeRanking_roundtrip_witness :
    ((4 : Nat) = 2 ^ 2 ∧ (4 : Nat) ≤ 4 ∧
      (["a", "b", "c", "d"] : List String).length = 4 ∧
      (["a", "b", "c", "d"] : List String).Nodup ∧
      (∀ r < 2, ∀ m < matchCount 4 r,
        resolveMatchParticipants 4 ["a", "b", "c", "d"] witWinners r m
          = some ⟨witA r m, witB r m⟩) ∧
      (∀ r < 2, ∀ m < matchCount 4 r,
        winnersGet witWinners (matchKey r m) = some (witW r m)) ∧
      (∀ r < 2, ∀ m < matchCount 4 r, witW r m = witA r m ∨ witW r m = witB r m)) ∧
    (∃ l, computeRanking 4 ["a", "b", "c", "d"] witWinners = .ok (some l) ∧
      l.length = 4 ∧ l.Nodup ∧ l.head? = some (witW 1 0) ∧
      l[1]? = some (loserFrom witA witB witW 1 0)) :=
  ⟨⟨by decide, by decide, by decide, by decide, by decide, by decide, by decide⟩,
   computeRanking_roundtrip 4 2 ["a", "b", "c", "d"] witWinners witA witB witW
     (by decide) (by decide) (by decide) (by decide) (by decide) (by decide) (by decide)⟩

/-! ### C4: nextOpenMatch returns the first open resolvable match -/

theorem findSome?_eq_some_split {α β : Type} {f : α → Option β} :
    ∀ {l : List α} {b : β}, l.findSome? f = some b →
      ∃ l1 x l2, l = l1 ++ x :: l2 ∧ f x = some b ∧ ∀ y ∈ l1, f y = none := by
  intro l
  induction l with
  | nil => intro b h; simp at h
  | cons x xs ih =>
    intro b h
    cases hf : f x with
    | some v =>
      simp only [List.findSome?_cons, hf] at h
      cases h
      exact ⟨[], x, xs, rfl, hf, by simp⟩
    | none =>
      simp only [List.findSome?_cons, hf] at h
      rcases ih h with ⟨l1, y, l2, heq, hfy, hnone⟩
      refine ⟨x :: l1, y, l2, by rw [heq]; rfl, hfy, ?_⟩
      intro z hz
      rcases List.mem_cons.mp hz with rfl | hz2
      · exact hf
      · exact hnone z hz2

theorem mem_matchList {size rounds : Nat} {p : Nat × Nat} :
    p ∈ matchList size rounds ↔ p.1 < rounds ∧ p.2 < matchCount size p.1 := by
  unfold matchList
  rw [List.mem_flatMap]
  constructor
  · rintro ⟨r, hr, hp⟩
    rcases List.mem_map.mp hp with ⟨m, hm, rfl⟩
    exact ⟨List.mem_range.mp hr, List.mem_range.mp hm⟩
  · rintro ⟨h1, h2⟩
    refine ⟨p.1, List.mem_range.mpr h1, List.mem_map.mpr ⟨p.2, List.mem_range.mpr h2, ?_⟩⟩
    rfl

theorem matchList_pairwise (size rounds : Nat) :
    (matchList size rounds).Pairwise lexLT := by
  unfold matchList
  rw [List.pairwise_flatMap]
  constructor
  · intro r _
    rw [List.pairwise_map]
    apply List.Pairwise.imp ?_ (List.pairwise_lt_range (matchCount size r))
    intro a b hab
    exact Or.inr ⟨rfl, hab⟩
  · apply List.Pairwise.imp ?_ (List.pairwise_lt_range rounds)
    intro r1 r2 h12 x hx y hy
    rcases List.mem_map.mp hx with ⟨m1, _, rfl⟩
    rcases List.mem_map.mp hy with ⟨m2, _, rfl⟩
    exact Or.inl h12

theorem tryOpenMatch_eq_some {size : Nat} {tracks : List String}
    {winners : WinnerMap} {p : Nat × Nat} {mr : MatchRef}
    (h : tryOpenMatch size tracks winners p = some mr) :
    mr.round = p.1 ∧ mr.matchIdx = p.2 ∧
    winnersGet winners (matchKey p.1 p.2) = none ∧
    resolveMatchParticipants size tracks winners p.1 p.2 = some ⟨mr.a, mr.b⟩ := by
  unfold tryOpenMatch at h
  cases hw : winnersGet winners (matchKey p.1 p.2) with
  | some v =>
    simp only [hw] at h
    exact Option.noConfusion h
  | none =>
    simp only [hw] at h
    cases hre : resolveMatchParticipants size tracks winners p.1 p.2 with
    | none =>
      simp only [hre] at h
      exact Option.noConfusion h
    | some pr =>
      simp only [hre] at h
      cases h
      exact ⟨rfl, rfl, rfl, rfl⟩

theorem tryOpenMatch_isSome_of_open {size : Nat} {tracks : List String}
    {winners : WinnerMap} {p : Nat × Nat}
    (hw : winnersGet winners (matchKey p.1 p.2) = none)
    (hre : (resolveMatchParticipants size tracks winners p.1 p.2).isSome) :
    (tryOpenMatch size tracks winners p).isSome := by
  unfold tryOpenMatch
  simp only [hw]
  cases hr2 : resolveMatchParticipants size tracks winners p.1 p.2 with
  | none => rw [hr2] at hre; simp at hre
  | some pr => simp

theorem tryOpenMatch_none_of_decided {size : Nat} {tracks : List String}
    {winners : WinnerMap} {p : Nat × Nat}
    (hw : (winnersGet winners (matchKey p.1 p.2)).isSome) :
    tryOpenMatch size tracks winners p = none := by
  unfold tryOpenMatch
  cases h : winnersGet winners (matchKey p.1 p.2) with
  | none => rw [h] at hw; simp at hw
  | some v => simp only [h]

/-- C4 counterexample: in the size-4 bracket over a, b, c, d whose winners
map records only the final match, the final match's winner is recorded and
yet `nextOpenMatch` returns round-0 match 0 rather than null. -/
theorem nextOpenMatch_final_recorded_counterexample :
    winnersGet [(matchKey 1 0, "a")] (matchKey (2 - 1) 0) = some "a" ∧
    nextOpenMatch 4 ["a", "b", "c", "d"] [(matchKey 1 0, "a")]
      = .ok (some ⟨0, 0, "a", "b"⟩) ∧
    nextOpenMatch 4 ["a", "b", "c", "d"] [(matchKey 1 0, "a")] ≠ .ok none :=
  ⟨by decide, by decide, by decide⟩

/-- C4 amended: over a power-of-two bracket, `nextOpenMatch` never returns
a match whose key has a recorded winner; any match it returns is in range,
undecided, resolvable, and lexicographically least (round first, then
match index) among all in-range undecided resolvable matches; and it
returns null once every in-range match has a recorded winner (the original
claim's trigger — the final winner alone being recorded — does not
suffice, as the counterexample shows). -/
theorem nextOpenMatch_first_open
    (size rounds : Nat) (tracks : List String) (winners : WinnerMap)
    (hsz : size = 2 ^ rounds) :
    (∀ mr : MatchRef, nextOpenMatch size tracks winners = .ok (some mr) →
      winnersGet winners (matchKey mr.round mr.matchIdx) = none ∧
      resolveMatchParticipants size tracks winners mr.round mr.matchIdx
        = some ⟨mr.a, mr.b⟩ ∧
      mr.round < rounds ∧ mr.matchIdx < matchCount size mr.round ∧
      (∀ r < rounds, ∀ m < matchCount size r,
        winnersGet winners (matchKey r m) = none →
        (resolveMatchParticipants size tracks winners r m).isSome →
        lexLE (mr.round, mr.matchIdx) (r, m))) ∧
    ((∀ r < rounds, ∀ m < matchCount size r,
        (winnersGet winners (matchKey r m)).isSome) →
      nextOpenMatch size tracks winners = .ok none) := by
  subst hsz
  have hnext : nextOpenMatch (2 ^ rounds) tracks winners
      = .ok ((matchList (2 ^ rounds) rounds).findSome?
          (tryOpenMatch (2 ^ rounds) tracks winners)) := by
    unfold nextOpenMatch
    rw [totalRounds_two_pow]
    rfl
  constructor
  · intro mr h
    rw [hnext] at h
    have hfs : (matchList (2 ^ rounds) rounds).findSome?
        (tryOpenMatch (2 ^ rounds) tracks winners) = some mr := Except.ok.inj h
    rcases findSome?_eq_some_split hfs with ⟨l1, x, l2, heq, hfx, hnone⟩
    obtain ⟨hxr, hxm, hxw, hxres⟩ := tryOpenMatch_eq_some hfx
    have hxmem : x ∈ matchList (2 ^ rounds) rounds := by
      rw [heq]
      exact List.mem_append.mpr (Or.inr (List.mem_cons_self x l2))
    have hxrange := mem_matchList.mp hxmem
    rw [hxr, hxm]
    refine ⟨hxw, hxres, hxrange.1, hxrange.2, ?_⟩
    intro r hrlt m hmlt hwnone hresS
    have hcand : ((r, m) : Nat × Nat) ∈ matchList (2 ^ rounds) rounds :=
      mem_matchList.mpr ⟨hrlt, hmlt⟩
    have hcandS : (tryOpenMatch (2 ^ rounds) tracks winners (r, m)).isSome :=
      tryOpenMatch_isSome_of_open hwnone hresS
    rw [heq] at hcand
    rcases List.mem_append.mp hcand with hin1 | hin2
    · exfalso
      rw [hnone (r, m) hin1] at hcandS
      simp at hcandS
    · rcases List.mem_cons.mp hin2 with hxeq | hin3
      · rw [← hxeq]
        exact Or.inr ⟨rfl, Nat.le_refl _⟩
      · have hpw := matchList_pairwise (2 ^ rounds) rounds
        rw [heq] at hpw
        have hpw2 := (List.pairwise_append.mp hpw).2.1
        have hlast := (List.pairwise_cons.mp hpw2).1 (r, m) hin3
        rcases hlast with h1 | h1
        · exact Or.inl h1
        · exact Or.inr ⟨h1.1, Nat.le_of_lt h1.2⟩
  · intro hall
    rw [hnext]
    have hnone : (matchList (2 ^ rounds) rounds).findSome?
        (tryOpenMatch (2 ^ rounds) tracks winners) = none := by
      rw [List.findSome?_eq_none_iff]
      intro p hp
      have hr := mem_matchList.mp hp
      exact tryOpenMatch_none_of_decided (hall p.1 hr.1 p.2 hr.2)
    rw [hnone]

/-- Witness for the amended C4 at a fully decided size-4 bracket. -/
theorem nextOpenMatch_first_open_witness :
    ((4 : Nat) = 2 ^ 2 ∧
      (∀ r < 2, ∀ m < matchCount 4 r,
        (winnersGet witWinners (matchKey r m)).isSome)) ∧
    nextOpenMatch 4 ["a", "b", "c", "d"] witWinners = .ok none :=
  ⟨⟨by decide, by decide⟩,
   (nextOpenMatch_first_open 4 2 ["a", "b", "c", "d"] witWinners (by decide)).2
     (by decide)⟩

/-! ### C6: the dual-source sizing loop on scenario C -/

theorem sizingLoop_unfold (host chall : List String) (perUser : Nat) :
    sizingLoop host chall perUser =
      if pow2Floor (min (pickUnique host perUser []).1.length
          (pickUnique chall perUser (pickUnique host perUser []).2).1.length) < 4 then
        .error .notEnoughTracks
      else if pow2Floor (min (pickUnique host perUser []).1.length
          (pickUnique chall perUser (pickUnique host perUser []).2).1.length) = perUser then
        .ok (perUser, (pickUnique host perUser []).1.take perUser,
          (pickUnique chall perUser (pickUnique host perUser []).2).1.take perUser)
      else
        sizingLoop host chall
          (pow2Floor (min (pickUnique host perUser []).1.length
            (pickUnique chall perUser (pickUnique host perUser []).2).1.length)) := by
  rw [sizingLoop]
  simp only [dite_eq_ite]

/-- C6: on scenario C — 30 unique host candidates, 9 unique challenger
candidates disjoint from them, configured size 32 so the per-side target
starts at 16 — the first iteration picks 16 and 9 tracks, rounds the
effective minimum 9 down to 8 and retries with 8; the second iteration
accepts with 8 per side; the start handler therefore materializes a
bracket of size 16; and in general a retry value is always strictly
smaller than the current per-side target, which is why the loop
terminates. -/
theorem sizing_scenarioC :
    ((pickUnique hostCand30 16 []).1.length = 16 ∧
      (pickUnique challCand9 16 (pickUnique hostCand30 16 []).2).1.length = 9 ∧
      pow2Floor 9 = 8) ∧
    sizingLoop hostCand30 challCand9 16 = sizingLoop hostCand30 challCand9 8 ∧
    sizingLoop hostCand30 challCand9 8
      = .ok (8, ["h01", "h02", "h03", "h04", "h05", "h06", "h07", "h08"],
          ["c1", "c2", "c3", "c4", "c5", "c6", "c7", "c8"]) ∧
    startedSize (startStep topTracks32 (some "H") hostCand30 challCand9) = some 16 ∧
    (∀ (host chall : List String) (perUser : Nat),
      pow2Floor (min (pickUnique host perUser []).1.length
        (pickUnique chall perUser (pickUnique host perUser []).2).1.length) ≠ perUser →
      pow2Floor (min (pickUnique host perUser []).1.length
        (pickUnique chall perUser (pickUnique host perUser []).2).1.length) < perUser) := by
  have hstep1 : sizingLoop hostCand30 challCand9 16 = sizingLoop hostCand30 challCand9 8 := by
    rw [sizingLoop_unfold]
    rw [if_neg (by decide), if_neg (by decide)]
    rw [show pow2Floor (min (pickUnique hostCand30 16 []).1.length
      (pickUnique challCand9 16 (pickUnique hostCand30 16 []).2).1.length) = 8 by decide]
  have hstep2 : sizingLoop hostCand30 challCand9 8
      = .ok (8, ["h01", "h02", "h03", "h04", "h05", "h06", "h07", "h08"],
          ["c1", "c2", "c3", "c4", "c5", "c6", "c7", "c8"]) := by
    rw [sizingLoop_unfold]
    rw [if_neg (by decide), if_pos (by decide)]
    decide
  refine ⟨⟨by decide, by decide, by decide⟩, hstep1, hstep2, ?_, ?_⟩
  · have hshape : startStep topTracks32 (some "H") hostCand30 challCand9
        = (match sizingLoop hostCand30 challCand9 16 with
          | .error _ => StartOutcome.errS .notEnoughTracks
          | .ok (perUser, hostTracks, challTracks) =>
            .started (perUser * 2)
              (buildBracketTracks hostTracks challTracks 1 false perUser)) := rfl
    rw [hshape, hstep1, hstep2]
    rfl
  · intro host chall perUser hne
    have h1 := pow2Floor_le (min (pickUnique host perUser []).1.length
      (pickUnique chall perUser (pickUnique host perUser []).2).1.length)
    have h2 := pickUnique_len_le host perUser []
    have h3 : min (pickUnique host perUser []).1.length
        (pickUnique chall perUser (pickUnique host perUser []).2).1.length
        ≤ (pickUnique host perUser []).1.length := Nat.min_le_left _ _
    omega

/-- Witness for the general strict-decrease conjunct of C6. -/
theorem sizing_scenarioC_witness :
    pow2Floor (min (pickUnique hostCand30 16 []).1.length
      (pickUnique challCand9 16 (pickUnique hostCand30 16 []).2).1.length) ≠ 16 ∧
    pow2Floor (min (pickUnique hostCand30 16 []).1.length
      (pickUnique challCand9 16 (pickUnique hostCand30 16 []).2).1.length) < 16 :=
  ⟨by decide, sizing_scenarioC.2.2.2.2 hostCand30 challCand9 16 (by decide)⟩

/-! ### C8: the top-tracks start path lacks the idempotence guard -/

/-- C8: the start command is idempotent for the playlist-vs path, whose
handler returns `ok` before any write while the tournament is in progress
or completed, but the top-tracks path has no such guard: on a completed
top-tracks tournament the handler runs sizing again and re-materializes a
fresh slot list with an empty winners map — discarding every recorded vote
and moving the status back to in_progress — instead of leaving the stored
state unchanged. -/
theorem start_top_tracks_not_idempotent :
    startStep completedTopTracks (some "H") hostCand8 challCand8
      = .started 16 (buildBracketTracks hostCand8 challCand8 1 false 8) ∧
    startStep completedTopTracks (some "H") hostCand8 challCand8 ≠ .unchanged ∧
    startStep completedPlaylistVs (some "H") hostCand8 challCand8 = .unchanged := by
  have hloop : sizingLoop hostCand8 challCand8 8 = .ok (8, hostCand8, challCand8) := by
    rw [sizingLoop_unfold]
    rw [if_neg (by decide), if_pos (by decide)]
    decide
  have hshape : startStep completedTopTracks (some "H") hostCand8 challCand8
      = (match sizingLoop hostCand8 challCand8 8 with
        | .error _ => StartOutcome.errS .notEnoughTracks
        | .ok (perUser, hostTracks, challTracks) =>
          .started (perUser * 2)
            (buildBracketTracks hostTracks challTracks 1 false perUser)) := rfl
  have hstart : startStep completedTopTracks (some "H") hostCand8 challCand8
      = .started 16 (buildBracketTracks hostCand8 challCand8 1 false 8) := by
    rw [hshape, hloop]
  refine ⟨hstart, ?_, by decide⟩
  rw [hstart]
  intro hcon
  exact StartOutcome.noConfusion hcon
